import Mathlib

/-!
Shallow embedding of the record-reconciliation and quota-violation engine of
the VLDB-Toolkits repository (`src/app/src/algorithms/data-processor.ts` and
`src/app/src/store/paper-store.ts`), together with theorems settling the
frozen claims about it.

JavaScript `Map<string, _>` objects are embedded as insertion-ordered
association lists `List (String × α)`; `Map.get`/`Map.set`/`Map.delete`
are `jsGet`/`jsSet`/`jsDelete`.  A JavaScript array read `xs[i]` that may be
out of bounds is embedded as `List.get? i` (the `undefined` value becoming
`none`), and the string-falsiness idiom `x || d` as `jsOrStr`.
-/

namespace VLDB

/-- JS `s.includes(c)` for a one-character needle. -/
def jsContainsChar (c : Char) (s : String) : Bool :=
  s.data.any (fun a => a = c)

/-- The grouping of JS `s.split(c)` for a one-character separator, on the
character list: `"" -> [""]`, separators delimit (possibly empty) pieces. -/
def splitCharList (c : Char) : List Char → List (List Char)
  | [] => [[]]
  | a :: rest =>
    if a = c then [] :: splitCharList c rest
    else
      match splitCharList c rest with
      | [] => [[a]]
      | g :: gs => (a :: g) :: gs

/-- JS `s.split(c)` for a one-character separator. -/
def jsSplitChar (c : Char) (s : String) : List String :=
  (splitCharList c s.data).map String.mk

/-- JS `s.trim()`: strip leading and trailing whitespace (the whitespace
characters exercised by this data are the ASCII ones). -/
def jsTrim (s : String) : String :=
  String.mk (((s.data.dropWhile Char.isWhitespace).reverse.dropWhile
    Char.isWhitespace).reverse)

/-- JS `x || d` on a possibly-`undefined` string: `undefined` and `""` are
falsy, every other string is truthy. -/
def jsOrStr (o : Option String) (d : String) : String :=
  match o with
  | none => d
  | some s => if s = "" then d else s

/-- JS `Map.get`: value of the first (unique) entry with the given key. -/
def jsGet {α : Type} : List (String × α) → String → Option α
  | [], _ => none
  | kv :: rest, k => if kv.1 = k then some kv.2 else jsGet rest k

/-- JS `Map.set`: overwrite the entry in place if the key is present,
otherwise append the new entry at the end (insertion order). -/
def jsSet {α : Type} : List (String × α) → String → α → List (String × α)
  | [], k, v => [(k, v)]
  | kv :: rest, k, v => if kv.1 = k then (k, v) :: rest else kv :: jsSet rest k v

/-- JS `Map.delete`: drop the entry with the given key. -/
def jsDelete {α : Type} : List (String × α) → String → List (String × α)
  | [], _ => []
  | kv :: rest, k => if kv.1 = k then jsDelete rest k else kv :: jsDelete rest k

/-- JS `Array.prototype.indexOf`: index of the first occurrence, `-1` if absent. -/
def jsIndexOf {α : Type} [DecidableEq α] : List α → α → Int
  | [], _ => -1
  | a :: as, x =>
      if a = x then 0
      else if jsIndexOf as x = -1 then -1 else jsIndexOf as x + 1

/-- The worker of `dedupFirst`: keep elements not yet seen, in order. -/
def dedupSeen {α : Type} [DecidableEq α] : List α → List α → List α
  | _, [] => []
  | seen, a :: as =>
    if a ∈ seen then dedupSeen seen as else a :: dedupSeen (a :: seen) as

/-- JS `new Set(xs)` materialised in insertion order: keep the first
occurrence of every element. -/
def dedupFirst {α : Type} [DecidableEq α] (l : List α) : List α := dedupSeen [] l

/-- JS `.sort((a, b) => a - b)` on a numeric array: ascending order. -/
def sortNums (l : List Int) : List Int := l.insertionSort (· ≤ ·)

/-- JS `.sort((a, b) => a - b)` on an array of numeric indices. -/
def sortIdxs (l : List Nat) : List Nat := l.insertionSort (· ≤ ·)

/-! ## Data model (`src/app/src/store/paper-types.ts`) -/

/-- One over-quota author annotation on a submission (`AuthorWarning`).
The `name` is the raw JS read `paper.authorNames[index]`, hence optional. -/
structure AuthorWarning where
  name : Option String
  email : String
  paperCount : Nat
  paperRank : Int
  deriving DecidableEq, Repr

/-- Per-author aggregate (`AuthorStats`). -/
structure AuthorStats where
  id : String
  name : String
  email : String
  paperCount : Nat
  paperIds : List Int
  organization : String
  hasWarning : Bool
  hasEmailConflict : Bool
  hasPotentialDuplicate : Bool
  deriving DecidableEq, Repr

/-- A user-declared identity merge (`AuthorMerge`). -/
structure AuthorMerge where
  id : String
  primaryEmail : String
  primaryName : String
  mergedEmails : List String
  mergedNames : List String
  note : String
  createdAt : String
  deriving DecidableEq, Repr

/-- One paper / submission (`Paper`), with every field of the source record. -/
structure Paper where
  paperId : Int
  originalPaperId : String
  title : String
  abstract : String
  primaryContactAuthorName : String
  primaryContactAuthorEmail : String
  authorNames : List String
  authorEmails : List String
  authorOrganizations : List String
  correspondingAuthorIndices : List Nat
  trackName : String
  primarySubjectArea : String
  secondarySubjectAreas : List String
  status : String
  created : String
  lastModified : String
  conflicts : String
  assigned : String
  completed : String
  percentCompleted : String
  bids : String
  discussion : String
  requestedForAuthorFeedback : String
  authorFeedbackSubmitted : String
  requestedForCameraReady : String
  cameraReadySubmitted : String
  requestedForPresentation : String
  files : String
  numberOfFiles : String
  supplementaryFiles : String
  numberOfSupplementaryFiles : String
  reviewers : String
  reviewerEmails : String
  metaReviewers : String
  metaReviewerEmails : String
  seniorMetaReviewers : String
  seniorMetaReviewerEmails : String
  reviewMinOverallRating : String
  reviewMaxOverallRating : String
  reviewAvgOverallRating : String
  reviewSpreadOverallRating : String
  chairNote : String
  hasWarning : Bool
  warningAuthors : List AuthorWarning
  deriving DecidableEq, Repr

/-- The author map: a JS `Map<string, AuthorStats>` in insertion order. -/
abbrev AuthorMap := List (String × AuthorStats)

/-- One imported spreadsheet (`Dataset`). -/
structure Dataset where
  id : String
  label : String
  fileName : String
  importedAt : String
  papers : List Paper
  authors : AuthorMap
  deriving DecidableEq, Repr

/-- One raw spreadsheet row (`ExcelRow`); cells other than the numeric
`Paper ID` may be absent (`none` embeds JS `undefined`). -/
structure ExcelRow where
  paperId : Int
  originalPaperId : Option String
  paperTitle : Option String
  abstract : Option String
  primaryContactAuthorName : Option String
  primaryContactAuthorEmail : Option String
  authorNamesCol : Option String
  authorEmailsCol : Option String
  authorsCol : Option String
  trackName : Option String
  primarySubjectArea : Option String
  secondarySubjectAreas : Option String
  status : Option String
  created : Option String
  lastModified : Option String
  conflicts : Option String
  assigned : Option String
  completed : Option String
  percentCompleted : Option String
  bids : Option String
  discussion : Option String
  requestedForAuthorFeedback : Option String
  authorFeedbackSubmitted : Option String
  requestedForCameraReady : Option String
  cameraReadySubmitted : Option String
  requestedForPresentation : Option String
  files : Option String
  numberOfFiles : Option String
  supplementaryFiles : Option String
  numberOfSupplementaryFiles : Option String
  reviewers : Option String
  reviewerEmails : Option String
  metaReviewers : Option String
  metaReviewerEmails : Option String
  seniorMetaReviewers : Option String
  seniorMetaReviewerEmails : Option String
  reviewMinOverallRating : Option String
  reviewMaxOverallRating : Option String
  reviewAvgOverallRating : Option String
  reviewSpreadOverallRating : Option String
  chairNote : Option String
  deriving DecidableEq, Repr

/-! ## Field Parser (`data-processor.ts`, lines 12–150) -/

/-- Split on a one-character delimiter, trim every piece and drop empties
(the body of each branch of `parseDelimitedString`). -/
def splitTrimDrop (s : String) (d : Char) : List String :=
  ((jsSplitChar d s).map jsTrim).filter (fun x => ¬ x = "")

/-- `parseDelimitedString` (lines 12–26): try `, ; \n |` in order and split
on the first delimiter contained in the string. -/
def parseDelimitedString (o : Option String) : List String :=
  match o with
  | none => []
  | some s =>
    if s = "" then []
    else if jsContainsChar ',' s then splitTrimDrop s ','
    else if jsContainsChar ';' s then splitTrimDrop s ';'
    else if jsContainsChar '\n' s then splitTrimDrop s '\n'
    else if jsContainsChar '|' s then splitTrimDrop s '|'
    else if jsTrim s = "" then [] else [jsTrim s]

/-- `formatAuthorName` (lines 32–46): reorder `"Last, First"` to `"First Last"`. -/
def formatAuthorName (name : String) : String :=
  let trimmed := jsTrim name
  if jsContainsChar ',' trimmed then
    match (jsSplitChar ',' trimmed).map jsTrim with
    | [p0, p1] => if p0 ≠ "" ∧ p1 ≠ "" then p1 ++ " " ++ p0 else trimmed
    | _ => trimmed
  else trimmed

/-- JS `s.replace(/\*/g, '')`: delete every `*` character. -/
def removeStars (s : String) : String := String.mk (s.data.filter (fun c => ¬ c = '*'))

/-- The shared `;`-split of the three author-list parsers: split on `;`,
trim, drop empty entries. -/
def splitEntries (s : String) : List String :=
  ((jsSplitChar ';' s).map jsTrim).filter (fun x => ¬ x = "")

/-- The shared indexed `forEach` of the three author-list parsers: per raw
entry, record the position when it carries a `*` marker, strip the `*`s,
trim, and apply the per-parser transformation `proc`. -/
def scanMarked (proc : String → String) : Nat → List String → List String × List Nat
  | _, [] => ([], [])
  | i, raw :: rest =>
    let tail := scanMarked proc (i + 1) rest
    (proc (jsTrim (removeStars raw)) :: tail.1,
     if jsContainsChar '*' raw then i :: tail.2 else tail.2)

/-- `parseAuthorNames` (lines 52–81): names are additionally formatted. -/
def parseAuthorNames (o : Option String) : List String × List Nat :=
  match o with
  | none => ([], [])
  | some s => if s = "" then ([], []) else scanMarked formatAuthorName 0 (splitEntries s)

/-- `parseAuthorEmails` (lines 87–113). -/
def parseAuthorEmails (o : Option String) : List String × List Nat :=
  match o with
  | none => ([], [])
  | some s => if s = "" then ([], []) else scanMarked (fun e => e) 0 (splitEntries s)

/-- The leftmost match of the regex `\(([^)]+)\)`: the first `(` followed by
at least one non-`)` character and then a `)`; returns the captured group. -/
def firstParenGroup : List Char → Option (List Char)
  | [] => none
  | c :: rest =>
    if c = '(' then
      let grab := rest.takeWhile (fun d => ¬ d = ')')
      if grab.length ≠ 0 ∧ grab.length < rest.length then some grab
      else firstParenGroup rest
    else firstParenGroup rest

/-- Organization extraction of `parseAuthorOrganizations` (lines 139–140):
regex capture, trimmed; no parentheses yields `""`. -/
def extractOrg (s : String) : String :=
  match firstParenGroup s.data with
  | some g => jsTrim (String.mk g)
  | none => ""

/-- `parseAuthorOrganizations` (lines 120–150). -/
def parseAuthorOrganizations (o : Option String) : List String × List Nat :=
  match o with
  | none => ([], [])
  | some s => if s = "" then ([], []) else scanMarked extractOrg 0 (splitEntries s)

/-! ## Aggregator and Conflict Detector
(`calculateAuthorStats`, `data-processor.ts` lines 156–218) -/

/-- The body of the first-pass inner `forEach`: look up or create the
`AuthorStats` entry for the email at position `i` of paper `p`, push the
paper id, and backfill a first non-empty organization. -/
def addAuthorEntry (p : Paper) (m : AuthorMap) (i : Nat) (email : String) : AuthorMap :=
  let name := jsOrStr (p.authorNames.get? i) "Unknown"
  let organization := jsOrStr (p.authorOrganizations.get? i) ""
  let base : AuthorStats :=
    match jsGet m email with
    | some a => a
    | none =>
      { id := email, name := name, email := email, paperCount := 0, paperIds := [],
        organization := organization, hasWarning := false, hasEmailConflict := false,
        hasPotentialDuplicate := false }
  let pushed := { base with paperIds := base.paperIds ++ [p.paperId] }
  let backfilled :=
    if base.organization = "" ∧ organization ≠ ""
    then { pushed with organization := organization }
    else pushed
  jsSet m email backfilled

/-- The indexed `forEach` over one paper's `authorEmails` (first pass). -/
def addPaperAuthors (p : Paper) : AuthorMap → Nat → List String → AuthorMap
  | m, _, [] => m
  | m, i, e :: rest => addPaperAuthors p (addAuthorEntry p m i e) (i + 1) rest

/-- First pass of `calculateAuthorStats` (lines 160–187). -/
def firstPass (papers : List Paper) : AuthorMap :=
  papers.foldl (fun m p => addPaperAuthors p m 0 p.authorEmails) []

/-- Second pass of `calculateAuthorStats` (lines 190–194): sort `paperIds`
ascending, recompute `paperCount` and the quota flag. -/
def finalizeAuthor (a : AuthorStats) : AuthorStats :=
  let sorted := sortNums a.paperIds
  { a with paperIds := sorted, paperCount := sorted.length,
           hasWarning := decide (2 < sorted.length) }

/-- All names (raw JS reads, `undefined` = `none`) under which `email`
appears across one paper's author positions. -/
def namesForEmail (p : Paper) (email : String) : Nat → List String → List (Option String)
  | _, [] => []
  | i, e :: rest =>
    (if e = email then [p.authorNames.get? i] else []) ++
      namesForEmail p email (i + 1) rest

/-- The conflict condition of lines 196–215: the set of distinct names seen
with this email has more than one element. -/
def hasNameConflict (papers : List Paper) (email : String) : Bool :=
  1 < (dedupFirst (papers.flatMap (fun p => namesForEmail p email 0 p.authorEmails))).length

/-- `calculateAuthorStats` (lines 156–218): first pass, then finalization,
then the email-conflict flagging pass. -/
def calculateAuthorStats (papers : List Paper) : AuthorMap :=
  let m := (firstPass papers).map (fun kv => (kv.1, finalizeAuthor kv.2))
  m.map (fun kv =>
    (kv.1, if hasNameConflict papers kv.1 then { kv.2 with hasEmailConflict := true } else kv.2))

/-! ## Merge Resolver (`applyAuthorMerges`, `data-processor.ts` lines 223–265) -/

/-- `[merge.primaryEmail, ...merge.mergedEmails]`. -/
def mergeGroup (m : AuthorMerge) : List String := m.primaryEmail :: m.mergedEmails

/-- `allAuthors` (lines 232–234): the aggregates of the group's emails that
exist in the pre-merge map; missing ones are skipped. -/
def gatheredAuthors (authors : AuthorMap) (mg : AuthorMerge) : List AuthorStats :=
  (mergeGroup mg).filterMap (fun e => jsGet authors e)

/-- The replacement `mergedAuthor` record of lines 239–257. -/
def mergedAuthorOf (authors : AuthorMap) (mg : AuthorMerge) : AuthorStats :=
  let allAuthors := gatheredAuthors authors mg
  let mergedPaperIds := sortNums (dedupFirst (allAuthors.flatMap (fun a => a.paperIds)))
  let organization :=
    jsOrStr ((allAuthors.find? (fun a => a.organization ≠ "")).map (fun a => a.organization)) ""
  { id := mg.primaryEmail, name := mg.primaryName, email := mg.primaryEmail,
    organization := organization, paperCount := mergedPaperIds.length,
    paperIds := mergedPaperIds, hasWarning := decide (2 < mergedPaperIds.length),
    hasEmailConflict := false, hasPotentialDuplicate := false }

/-- The body of the `merges.forEach` loop: gathered aggregates are looked up
in the pre-merge `authors` map, never in the partially-built `result`. -/
def mergeStep (authors : AuthorMap) (result : AuthorMap) (mg : AuthorMerge) : AuthorMap :=
  if (gatheredAuthors authors mg).length = 0 then result
  else
    jsSet ((mergeGroup mg).foldl (fun r e => jsDelete r e) result) mg.primaryEmail
      (mergedAuthorOf authors mg)

/-- `applyAuthorMerges` (lines 223–265). -/
def applyAuthorMerges (authors : AuthorMap) (merges : List AuthorMerge) : AuthorMap :=
  merges.foldl (mergeStep authors) authors

/-! ## Warning Annotator (`markPaperWarnings`, `data-processor.ts` lines 271–316) -/

/-- The `emailToMergedEmail` map (lines 277–283): every email of a merge
group, primary included, maps to that merge's `primaryEmail`; a later merge
overwrites an earlier one. -/
def mergeResolutionMap (merges : List AuthorMerge) : List (String × String) :=
  merges.foldl
    (fun acc m => (mergeGroup m).foldl (fun a e => jsSet a e m.primaryEmail) acc) []

/-- The inner `forEach` over a paper's author positions (lines 288–308),
collecting the pushed `AuthorWarning` entries in order. -/
def warnGo (authors : AuthorMap) (resMap : List (String × String)) (p : Paper) :
    Nat → List String → List AuthorWarning
  | _, [] => []
  | i, e :: rest =>
    let tail := warnGo authors resMap p (i + 1) rest
    let actualEmail := jsOrStr (jsGet resMap e) e
    match jsGet authors actualEmail with
    | none => tail
    | some a =>
      if a.hasWarning then
        let paperRank := jsIndexOf a.paperIds p.paperId + 1
        if 2 < paperRank then
          { name := p.authorNames.get? i, email := e, paperCount := a.paperCount,
            paperRank := paperRank } :: tail
        else tail
      else tail

/-- The per-paper body of `papers.map` (lines 285–315): overwrite the two
annotation fields, leave everything else unchanged. -/
def markOnePaper (authors : AuthorMap) (resMap : List (String × String)) (p : Paper) : Paper :=
  let warningAuthors := warnGo authors resMap p 0 p.authorEmails
  { p with hasWarning := decide (0 < warningAuthors.length),
           warningAuthors := warningAuthors }

/-- `markPaperWarnings` (lines 271–316). -/
def markPaperWarnings (papers : List Paper) (authors : AuthorMap)
    (merges : List AuthorMerge := []) : List Paper :=
  papers.map (markOnePaper authors (mergeResolutionMap merges))

/-! ## Record Builder (`convertExcelRowToPaper`, `data-processor.ts` lines 321–395) -/

/-- `convertExcelRowToPaper` (lines 321–395). -/
def convertExcelRowToPaper (row : ExcelRow) : Paper :=
  let authorNamesResult := parseAuthorNames row.authorNamesCol
  let authorEmailsResult := parseAuthorEmails row.authorEmailsCol
  let authorOrgsResult := parseAuthorOrganizations row.authorsCol
  let correspondingIndices :=
    sortIdxs (dedupFirst (authorNamesResult.2 ++ authorEmailsResult.2 ++ authorOrgsResult.2))
  { paperId := row.paperId,
    originalPaperId := jsOrStr row.originalPaperId "",
    title := jsOrStr row.paperTitle "",
    abstract := jsOrStr row.abstract "",
    primaryContactAuthorName := jsOrStr row.primaryContactAuthorName "",
    primaryContactAuthorEmail := jsOrStr row.primaryContactAuthorEmail "",
    authorNames := authorNamesResult.1,
    authorEmails := authorEmailsResult.1,
    authorOrganizations := authorOrgsResult.1,
    correspondingAuthorIndices := correspondingIndices,
    trackName := jsOrStr row.trackName "",
    primarySubjectArea := jsOrStr row.primarySubjectArea "",
    secondarySubjectAreas := parseDelimitedString row.secondarySubjectAreas,
    status := jsOrStr row.status "",
    created := jsOrStr row.created "",
    lastModified := jsOrStr row.lastModified "",
    conflicts := jsOrStr row.conflicts "",
    assigned := jsOrStr row.assigned "",
    completed := jsOrStr row.completed "",
    percentCompleted := jsOrStr row.percentCompleted "",
    bids := jsOrStr row.bids "",
    discussion := jsOrStr row.discussion "",
    requestedForAuthorFeedback := jsOrStr row.requestedForAuthorFeedback "",
    authorFeedbackSubmitted := jsOrStr row.authorFeedbackSubmitted "",
    requestedForCameraReady := jsOrStr row.requestedForCameraReady "",
    cameraReadySubmitted := jsOrStr row.cameraReadySubmitted "",
    requestedForPresentation := jsOrStr row.requestedForPresentation "",
    files := jsOrStr row.files "",
    numberOfFiles := jsOrStr row.numberOfFiles "",
    supplementaryFiles := jsOrStr row.supplementaryFiles "",
    numberOfSupplementaryFiles := jsOrStr row.numberOfSupplementaryFiles "",
    reviewers := jsOrStr row.reviewers "",
    reviewerEmails := jsOrStr row.reviewerEmails "",
    metaReviewers := jsOrStr row.metaReviewers "",
    metaReviewerEmails := jsOrStr row.metaReviewerEmails "",
    seniorMetaReviewers := jsOrStr row.seniorMetaReviewers "",
    seniorMetaReviewerEmails := jsOrStr row.seniorMetaReviewerEmails "",
    reviewMinOverallRating := jsOrStr row.reviewMinOverallRating "",
    reviewMaxOverallRating := jsOrStr row.reviewMaxOverallRating "",
    reviewAvgOverallRating := jsOrStr row.reviewAvgOverallRating "",
    reviewSpreadOverallRating := jsOrStr row.reviewSpreadOverallRating "",
    chairNote := jsOrStr row.chairNote "",
    hasWarning := false,
    warningAuthors := [] }

/-- `processExcelData` (lines 400–417). -/
def processExcelData (rows : List ExcelRow) : List Paper × AuthorMap :=
  let papers := rows.map convertExcelRowToPaper
  let authors := calculateAuthorStats papers
  (markPaperWarnings papers authors, authors)

/-! ## Store-level operations (`paper-store.ts`) -/

/-- `mergeDatasets` (`paper-store.ts` lines 57–75). -/
def mergeDatasets (datasets : List Dataset) : List Paper × AuthorMap :=
  if datasets.length = 0 then ([], [])
  else
    let allPapers := datasets.flatMap (fun ds => ds.papers)
    let authors := calculateAuthorStats allPapers
    (markPaperWarnings allPapers authors, authors)

/-- The `datasetId === 'all'` branch of `setCurrentDataset`
(`paper-store.ts` lines 101–111): combine, apply merges, re-mark warnings. -/
def setCurrentDatasetAll (datasets : List Dataset) (authorMerges : List AuthorMerge) :
    List Paper × AuthorMap :=
  let md := mergeDatasets datasets
  let authors := applyAuthorMerges md.2 authorMerges
  let papers := markPaperWarnings md.1 authors authorMerges
  (papers, authors)

/-- `unmergeAuthors` on the merge list (`paper-store.ts` lines 229–237). -/
def unmergeAuthors (merges : List AuthorMerge) (mergeId : String) : List AuthorMerge :=
  merges.filter (fun m => ¬ m.id = mergeId)

/-- `removeAuthorFromMerge` on the merge list (`paper-store.ts` lines 240–292). -/
def removeAuthorFromMerge (merges : List AuthorMerge) (mergeId emailToRemove : String) :
    List AuthorMerge :=
  match merges.find? (fun m => m.id = mergeId) with
  | none => merges
  | some merge =>
    if merge.primaryEmail = emailToRemove then
      if merge.mergedEmails.length = 0 then unmergeAuthors merges mergeId
      else
        let updatedMerge :=
          { merge with
            primaryEmail := (merge.mergedEmails.get? 0).getD "",
            primaryName := (merge.mergedNames.get? 0).getD "",
            mergedEmails := merge.mergedEmails.drop 1,
            mergedNames := merge.mergedNames.drop 1 }
        merges.map (fun m => if m.id = mergeId then updatedMerge else m)
    else
      if jsIndexOf merge.mergedEmails emailToRemove = -1 then merges
      else
        if merge.mergedEmails.length = 1 then unmergeAuthors merges mergeId
        else
          let idx := (jsIndexOf merge.mergedEmails emailToRemove).toNat
          let updatedMerge :=
            { merge with
              mergedEmails := merge.mergedEmails.eraseIdx idx,
              mergedNames := merge.mergedNames.eraseIdx idx }
          merges.map (fun m => if m.id = mergeId then updatedMerge else m)

/-! ## Concrete fixtures used by witnesses and counterexamples -/

/-- A paper with every raw field blank. -/
def basePaper : Paper :=
  { paperId := 0, originalPaperId := "", title := "", abstract := "",
    primaryContactAuthorName := "", primaryContactAuthorEmail := "",
    authorNames := [], authorEmails := [], authorOrganizations := [],
    correspondingAuthorIndices := [], trackName := "", primarySubjectArea := "",
    secondarySubjectAreas := [], status := "", created := "", lastModified := "",
    conflicts := "", assigned := "", completed := "", percentCompleted := "",
    bids := "", discussion := "", requestedForAuthorFeedback := "",
    authorFeedbackSubmitted := "", requestedForCameraReady := "",
    cameraReadySubmitted := "", requestedForPresentation := "", files := "",
    numberOfFiles := "", supplementaryFiles := "", numberOfSupplementaryFiles := "",
    reviewers := "", reviewerEmails := "", metaReviewers := "",
    metaReviewerEmails := "", seniorMetaReviewers := "", seniorMetaReviewerEmails := "",
    reviewMinOverallRating := "", reviewMaxOverallRating := "",
    reviewAvgOverallRating := "", reviewSpreadOverallRating := "", chairNote := "",
    hasWarning := false, warningAuthors := [] }

/-- A paper with the given id and author name/email lists. -/
def mkP (pid : Int) (names emails : List String) : Paper :=
  { basePaper with paperId := pid, authorNames := names, authorEmails := emails }

/-- An author aggregate with the given email, name, paper ids and organization. -/
def mkA (email name : String) (pids : List Int) (org : String) : AuthorStats :=
  { id := email, name := name, email := email, paperCount := pids.length,
    paperIds := pids, organization := org, hasWarning := decide (2 < pids.length),
    hasEmailConflict := false, hasPotentialDuplicate := false }

/-- A merge record with the given id, primary identity and absorbed identities. -/
def mkM (mid pEmail pName : String) (mEmails mNames : List String) : AuthorMerge :=
  { id := mid, primaryEmail := pEmail, primaryName := pName,
    mergedEmails := mEmails, mergedNames := mNames, note := "", createdAt := "" }

/-- A raw row with only the author-related cells filled. -/
def mkRow (pid : Int) (namesCol emailsCol authorsCol : Option String) : ExcelRow :=
  { paperId := pid, originalPaperId := none, paperTitle := none, abstract := none,
    primaryContactAuthorName := none, primaryContactAuthorEmail := none,
    authorNamesCol := namesCol, authorEmailsCol := emailsCol, authorsCol := authorsCol,
    trackName := none, primarySubjectArea := none, secondarySubjectAreas := none,
    status := none, created := none, lastModified := none, conflicts := none,
    assigned := none, completed := none, percentCompleted := none, bids := none,
    discussion := none, requestedForAuthorFeedback := none,
    authorFeedbackSubmitted := none, requestedForCameraReady := none,
    cameraReadySubmitted := none, requestedForPresentation := none, files := none,
    numberOfFiles := none, supplementaryFiles := none,
    numberOfSupplementaryFiles := none, reviewers := none, reviewerEmails := none,
    metaReviewers := none, metaReviewerEmails := none, seniorMetaReviewers := none,
    seniorMetaReviewerEmails := none, reviewMinOverallRating := none,
    reviewMaxOverallRating := none, reviewAvgOverallRating := none,
    reviewSpreadOverallRating := none, chairNote := none }

/-! ## Lemmas about the JS `Map` embedding -/

theorem jsGet_jsSet {α : Type} (m : List (String × α)) (k k' : String) (v : α) :
    jsGet (jsSet m k v) k' = if k' = k then some v else jsGet m k' := by
  induction m with
  | nil =>
    by_cases h : k' = k
    · simp [jsSet, jsGet, h]
    · have h' : ¬ k = k' := fun hh => h hh.symm
      simp [jsSet, jsGet, h, h']
  | cons kv rest ih =>
    by_cases hk : kv.1 = k
    · by_cases h : k' = k
      · simp [jsSet, jsGet, hk, h]
      · have h' : ¬ k = k' := fun hh => h hh.symm
        have hkv : ¬ kv.1 = k' := by rw [hk]; exact h'
        simp [jsSet, jsGet, hk, h, h', hkv]
    · by_cases h : kv.1 = k'
      · have h' : ¬ k' = k := fun hh => hk (by rw [h, hh])
        simp [jsSet, jsGet, hk, h, h']
      · simp [jsSet, jsGet, hk, h, ih]

theorem jsGet_jsDelete {α : Type} (m : List (String × α)) (k k' : String) :
    jsGet (jsDelete m k) k' = if k' = k then none else jsGet m k' := by
  induction m with
  | nil => simp [jsDelete, jsGet]
  | cons kv rest ih =>
    by_cases hk : kv.1 = k
    · by_cases h : k' = k
      · subst h; simp [jsDelete, hk, ih]
      · have h' : ¬ k = k' := fun hh => h hh.symm
        simp [jsDelete, jsGet, hk, h, h', ih]
    · by_cases h : kv.1 = k'
      · have h' : ¬ k' = k := fun hh => hk (by rw [h, hh])
        simp [jsDelete, jsGet, hk, h, h']
      · simp [jsDelete, jsGet, hk, h, ih]

theorem jsGet_deleteAll {α : Type} (es : List String) (m : List (String × α)) (k : String) :
    jsGet (es.foldl (fun r e => jsDelete r e) m) k =
      if k ∈ es then none else jsGet m k := by
  induction es generalizing m with
  | nil => simp
  | cons e rest ih =>
    simp only [List.foldl_cons, ih, jsGet_jsDelete, List.mem_cons]
    by_cases h1 : k ∈ rest <;> by_cases h2 : k = e <;> simp [h1, h2]

theorem jsGet_setAll {α : Type} (es : List String) (m : List (String × α)) (v : α)
    (k : String) :
    jsGet (es.foldl (fun r e => jsSet r e v) m) k =
      if k ∈ es then some v else jsGet m k := by
  induction es generalizing m with
  | nil => simp
  | cons e rest ih =>
    simp only [List.foldl_cons, ih, jsGet_jsSet, List.mem_cons]
    by_cases h1 : k ∈ rest <;> by_cases h2 : k = e <;> simp [h1, h2]

theorem jsGet_mapVal {α β : Type} (f : String → α → β) (m : List (String × α)) (k : String) :
    jsGet (m.map (fun kv => (kv.1, f kv.1 kv.2))) k = (jsGet m k).map (f k) := by
  induction m with
  | nil => simp [jsGet]
  | cons kv rest ih =>
    by_cases h : kv.1 = k
    · subst h; simp [jsGet, ih]
    · simp [jsGet, h, ih]

/-! ## Lemmas about sorting, dedup and `indexOf` -/

theorem sortNums_perm (l : List Int) : (sortNums l).Perm l :=
  List.perm_insertionSort _ l

theorem mem_sortNums {x : Int} {l : List Int} : x ∈ sortNums l ↔ x ∈ l :=
  (sortNums_perm l).mem_iff

theorem sortNums_sorted (l : List Int) : (sortNums l).Sorted (· ≤ ·) :=
  List.sorted_insertionSort _ l

theorem sortNums_nodup {l : List Int} (h : l.Nodup) : (sortNums l).Nodup :=
  ((sortNums_perm l).nodup_iff).mpr h

theorem mem_dedupSeen {α : Type} [DecidableEq α] :
    ∀ (l seen : List α) (x : α), x ∈ dedupSeen seen l ↔ x ∈ l ∧ x ∉ seen := by
  intro l
  induction l with
  | nil => intro seen x; simp [dedupSeen]
  | cons a as ih =>
    intro seen x
    rw [dedupSeen]
    by_cases ha : a ∈ seen
    · rw [if_pos ha, ih]
      constructor
      · rintro ⟨h1, h2⟩
        exact ⟨List.mem_cons_of_mem _ h1, h2⟩
      · rintro ⟨h1, h2⟩
        refine ⟨?_, h2⟩
        rcases List.mem_cons.mp h1 with rfl | h1
        · exact absurd ha h2
        · exact h1
    · rw [if_neg ha, List.mem_cons, ih]
      constructor
      · rintro (rfl | ⟨h1, h2⟩)
        · simp [ha]
        · refine ⟨List.mem_cons_of_mem _ h1, ?_⟩
          intro hs
          exact h2 (List.mem_cons_of_mem _ hs)
      · rintro ⟨h1, h2⟩
        by_cases hx : x = a
        · exact Or.inl hx
        · right
          rcases List.mem_cons.mp h1 with h | h
          · exact absurd h hx
          · refine ⟨h, ?_⟩
            intro hs
            rcases List.mem_cons.mp hs with h' | h'
            · exact hx h'
            · exact h2 h'

theorem mem_dedupFirst {α : Type} [DecidableEq α] {x : α} {l : List α} :
    x ∈ dedupFirst l ↔ x ∈ l := by
  rw [dedupFirst, mem_dedupSeen]
  simp

theorem nodup_dedupSeen {α : Type} [DecidableEq α] :
    ∀ (l seen : List α), (dedupSeen seen l).Nodup := by
  intro l
  induction l with
  | nil => intro seen; simp [dedupSeen]
  | cons a as ih =>
    intro seen
    rw [dedupSeen]
    by_cases ha : a ∈ seen
    · rw [if_pos ha]
      exact ih seen
    · rw [if_neg ha]
      refine List.nodup_cons.mpr ⟨?_, ih (a :: seen)⟩
      rw [mem_dedupSeen]
      rintro ⟨_, h2⟩
      exact h2 (List.mem_cons_self a seen)

theorem nodup_dedupFirst {α : Type} [DecidableEq α] (l : List α) :
    (dedupFirst l).Nodup :=
  nodup_dedupSeen l []

theorem jsIndexOf_cases {α : Type} [DecidableEq α] (l : List α) (x : α) :
    jsIndexOf l x = -1 ∨ (0 ≤ jsIndexOf l x ∧ jsIndexOf l x < (l.length : Int)) := by
  induction l with
  | nil => left; rfl
  | cons a as ih =>
    rw [jsIndexOf]
    by_cases h : a = x
    · right
      rw [if_pos h]
      refine ⟨le_refl 0, ?_⟩
      simp only [List.length_cons]
      push_cast
      omega
    · rcases ih with h1 | h1
      · left; simp [h, h1]
      · right
        have h2 : ¬ jsIndexOf as x = -1 := by omega
        rw [if_neg h, if_neg h2]
        simp only [List.length_cons]
        push_cast
        omega

/-! ## Characterization of the Merge Resolver -/

theorem jsGet_mergeStep (authors r : AuthorMap) (mg : AuthorMerge) (k : String) :
    jsGet (mergeStep authors r mg) k =
      if (gatheredAuthors authors mg).length = 0 then jsGet r k
      else if k = mg.primaryEmail then some (mergedAuthorOf authors mg)
      else if k ∈ mergeGroup mg then none
      else jsGet r k := by
  rw [mergeStep]
  by_cases hg : (gatheredAuthors authors mg).length = 0
  · simp [hg]
  · rw [if_neg hg, if_neg hg, jsGet_jsSet, jsGet_deleteAll]

/-- Pointwise (content) equality of two JS maps. -/
def EqMap {α : Type} (m1 m2 : List (String × α)) : Prop :=
  ∀ k, jsGet m1 k = jsGet m2 k

theorem EqMap.rfl {α : Type} (m : List (String × α)) : EqMap m m := fun _ => Eq.refl _

theorem EqMap.trans {α : Type} {m1 m2 m3 : List (String × α)}
    (h1 : EqMap m1 m2) (h2 : EqMap m2 m3) : EqMap m1 m3 :=
  fun k => (h1 k).trans (h2 k)

theorem mergeStep_congr (authors : AuthorMap) {r1 r2 : AuthorMap} (mg : AuthorMerge)
    (h : EqMap r1 r2) : EqMap (mergeStep authors r1 mg) (mergeStep authors r2 mg) := by
  intro k
  rw [jsGet_mergeStep, jsGet_mergeStep, h k]

/-- Two merges whose email groups share nothing. -/
def DisjointGroups (m1 m2 : AuthorMerge) : Prop :=
  ∀ e, e ∈ mergeGroup m1 → e ∉ mergeGroup m2

theorem DisjointGroups.symm {m1 m2 : AuthorMerge} (h : DisjointGroups m1 m2) :
    DisjointGroups m2 m1 :=
  fun e h2 h1 => h e h1 h2

theorem mergeStep_comm (authors r : AuthorMap) {m1 m2 : AuthorMerge}
    (hd : DisjointGroups m1 m2) :
    EqMap (mergeStep authors (mergeStep authors r m1) m2)
      (mergeStep authors (mergeStep authors r m2) m1) := by
  intro k
  have hp1 : m1.primaryEmail ∈ mergeGroup m1 := List.mem_cons_self _ _
  have hp2 : m2.primaryEmail ∈ mergeGroup m2 := List.mem_cons_self _ _
  rw [jsGet_mergeStep, jsGet_mergeStep, jsGet_mergeStep, jsGet_mergeStep]
  by_cases hg1 : (gatheredAuthors authors m1).length = 0 <;>
    by_cases hg2 : (gatheredAuthors authors m2).length = 0
  · simp [hg1, hg2]
  · simp [hg1, hg2]
  · simp [hg1, hg2]
  · simp only [if_neg hg1, if_neg hg2]
    by_cases hk2 : k = m2.primaryEmail
    · subst hk2
      have hn1 : m2.primaryEmail ∉ mergeGroup m1 := fun hmem => hd _ hmem hp2
      have hne : ¬ m2.primaryEmail = m1.primaryEmail := fun h => hn1 (h ▸ hp1)
      simp [hn1, hne]
    · by_cases hk1 : k = m1.primaryEmail
      · subst hk1
        have hn2 : m1.primaryEmail ∉ mergeGroup m2 := fun hmem => hd _ hp1 hmem
        simp [hk2, hn2]
      · by_cases hm2 : k ∈ mergeGroup m2
        · have hn1 : k ∉ mergeGroup m1 := fun hmem => hd _ hmem hm2
          simp [hk1, hk2, hm2, hn1]
        · by_cases hm1 : k ∈ mergeGroup m1 <;> simp [hk1, hk2, hm1, hm2]

theorem foldl_mergeStep_congr (authors : AuthorMap) (l : List AuthorMerge)
    {r1 r2 : AuthorMap} (h : EqMap r1 r2) :
    EqMap (l.foldl (mergeStep authors) r1) (l.foldl (mergeStep authors) r2) := by
  induction l generalizing r1 r2 with
  | nil => simpa
  | cons m rest ih => simpa using ih (mergeStep_congr authors m h)

theorem foldl_mergeStep_perm (authors : AuthorMap) {l1 l2 : List AuthorMerge}
    (hp : l1.Perm l2) (hd : l1.Pairwise DisjointGroups) (r : AuthorMap) :
    EqMap (l1.foldl (mergeStep authors) r) (l2.foldl (mergeStep authors) r) := by
  induction hp generalizing r with
  | nil => exact EqMap.rfl _
  | cons m hperm ih =>
    simp only [List.foldl_cons]
    exact ih (List.Pairwise.of_cons hd) _
  | swap x y l =>
    simp only [List.foldl_cons]
    have hxy : DisjointGroups y x := (List.pairwise_cons.mp hd).1 x (List.mem_cons_self _ _)
    exact foldl_mergeStep_congr authors l (mergeStep_comm authors r hxy)
  | trans h12 h23 ih1 ih2 =>
    have hd2 : _ := (h12.pairwise_iff (fun h => DisjointGroups.symm h)).mp hd
    exact (ih1 hd r).trans (ih2 hd2 r)

/-! ## Lemmas about the Aggregator -/

theorem jsGet_map_finalize (m : AuthorMap) (k : String) :
    jsGet (m.map (fun kv => (kv.1, finalizeAuthor kv.2))) k =
      (jsGet m k).map finalizeAuthor := by
  simpa using jsGet_mapVal (fun _ v => finalizeAuthor v) m k

theorem jsGet_map_conflictFlag (papers : List Paper) (m : AuthorMap) (k : String) :
    jsGet (m.map (fun kv =>
        (kv.1, if hasNameConflict papers kv.1
               then { kv.2 with hasEmailConflict := true } else kv.2))) k =
      (jsGet m k).map (fun v =>
        if hasNameConflict papers k then { v with hasEmailConflict := true } else v) := by
  simpa using
    jsGet_mapVal
      (fun k2 v => if hasNameConflict papers k2 then { v with hasEmailConflict := true } else v)
      m k

theorem calcStats_lookup (papers : List Paper) (e : String) :
    jsGet (calculateAuthorStats papers) e =
      (jsGet (firstPass papers) e).map (fun v =>
        if hasNameConflict papers e then { finalizeAuthor v with hasEmailConflict := true }
        else finalizeAuthor v) := by
  simp only [calculateAuthorStats]
  rw [jsGet_map_conflictFlag, jsGet_map_finalize]
  cases jsGet (firstPass papers) e <;> rfl

theorem calc_count_warning (papers : List Paper) (e : String) (a : AuthorStats)
    (h : jsGet (calculateAuthorStats papers) e = some a) :
    a.paperCount = a.paperIds.length ∧ a.hasWarning = decide (2 < a.paperIds.length) := by
  rw [calcStats_lookup] at h
  cases hfp : jsGet (firstPass papers) e with
  | none => rw [hfp] at h; cases h
  | some v =>
    rw [hfp] at h
    simp only [Option.map_some'] at h
    have ha := Option.some.inj h
    subst ha
    by_cases hc : hasNameConflict papers e <;> simp [hc, finalizeAuthor]

/-! ## Lemmas about the Warning Annotator -/

theorem warnGo_update (authors : AuthorMap) (resMap : List (String × String)) (p : Paper)
    (hw : Bool) (wa : List AuthorWarning) (i : Nat) (es : List String) :
    warnGo authors resMap { p with hasWarning := hw, warningAuthors := wa } i es =
      warnGo authors resMap p i es := by
  induction es generalizing i with
  | nil => rfl
  | cons e rest ih =>
    simp only [warnGo]
    rw [ih]

theorem markOnePaper_markOnePaper (A1 : AuthorMap) (R1 : List (String × String))
    (A0 : AuthorMap) (R0 : List (String × String)) (p : Paper) :
    markOnePaper A1 R1 (markOnePaper A0 R0 p) = markOnePaper A1 R1 p := by
  simp only [markOnePaper]
  simp only [warnGo_update]

theorem markPaperWarnings_length (papers : List Paper) (A : AuthorMap)
    (M : List AuthorMerge) :
    (markPaperWarnings papers A M).length = papers.length := by
  simp [markPaperWarnings]

theorem markPaperWarnings_get? (papers : List Paper) (A : AuthorMap)
    (M : List AuthorMerge) (i : Nat) :
    (markPaperWarnings papers A M).get? i =
      (papers.get? i).map (markOnePaper A (mergeResolutionMap M)) := by
  simp [markPaperWarnings]

theorem markPaperWarnings_twice (S : List Paper) (A0 A : AuthorMap)
    (M0 M : List AuthorMerge) :
    markPaperWarnings (markPaperWarnings S A0 M0) A M = markPaperWarnings S A M := by
  simp only [markPaperWarnings, List.map_map]
  apply List.map_congr_left
  intro p _
  exact markOnePaper_markOnePaper _ _ _ _ p

theorem mem_warnGo (authors : AuthorMap) (resMap : List (String × String)) (p : Paper)
    (w : AuthorWarning) :
    ∀ (es : List String) (i : Nat),
      (w ∈ warnGo authors resMap p i es ↔
        ∃ k e a, es.get? k = some e ∧
          jsGet authors (jsOrStr (jsGet resMap e) e) = some a ∧
          a.hasWarning = true ∧
          2 < jsIndexOf a.paperIds p.paperId + 1 ∧
          w = ⟨p.authorNames.get? (i + k), e, a.paperCount,
               jsIndexOf a.paperIds p.paperId + 1⟩) := by
  intro es
  induction es with
  | nil =>
    intro i
    simp [warnGo]
  | cons e0 rest ih =>
    intro i
    simp only [warnGo]
    cases hga : jsGet authors (jsOrStr (jsGet resMap e0) e0) with
    | none =>
      simp only [hga]
      rw [ih (i + 1)]
      constructor
      · rintro ⟨k, e, a, h1, h2, h3, h4, h5⟩
        refine ⟨k + 1, e, a, by simpa using h1, h2, h3, h4, ?_⟩
        have hidx : i + 1 + k = i + (k + 1) := by omega
        rw [← hidx]
        exact h5
      · rintro ⟨k, e, a, h1, h2, h3, h4, h5⟩
        cases k with
        | zero =>
          simp only [List.get?_cons_zero, Option.some.injEq] at h1
          subst h1
          rw [hga] at h2
          cases h2
        | succ k =>
          refine ⟨k, e, a, by simpa using h1, h2, h3, h4, ?_⟩
          have hidx : i + 1 + k = i + (k + 1) := by omega
          rw [hidx]
          exact h5
    | some a0 =>
      simp only [hga]
      by_cases hW : a0.hasWarning = true
      · rw [if_pos hW]
        by_cases hR : 2 < jsIndexOf a0.paperIds p.paperId + 1
        · rw [if_pos hR]
          rw [List.mem_cons, ih (i + 1)]
          constructor
          · rintro (h | ⟨k, e, a, h1, h2, h3, h4, h5⟩)
            · exact ⟨0, e0, a0, rfl, hga, hW, hR, by simpa using h⟩
            · refine ⟨k + 1, e, a, by simpa using h1, h2, h3, h4, ?_⟩
              have hidx : i + 1 + k = i + (k + 1) := by omega
              rw [← hidx]
              exact h5
          · rintro ⟨k, e, a, h1, h2, h3, h4, h5⟩
            cases k with
            | zero =>
              left
              simp only [List.get?_cons_zero, Option.some.injEq] at h1
              subst h1
              rw [hga] at h2
              have ha := Option.some.inj h2
              subst ha
              simpa using h5
            | succ k =>
              right
              refine ⟨k, e, a, by simpa using h1, h2, h3, h4, ?_⟩
              have hidx : i + 1 + k = i + (k + 1) := by omega
              rw [hidx]
              exact h5
        · rw [if_neg hR]
          rw [ih (i + 1)]
          constructor
          · rintro ⟨k, e, a, h1, h2, h3, h4, h5⟩
            refine ⟨k + 1, e, a, by simpa using h1, h2, h3, h4, ?_⟩
            have hidx : i + 1 + k = i + (k + 1) := by omega
            rw [← hidx]
            exact h5
          · rintro ⟨k, e, a, h1, h2, h3, h4, h5⟩
            cases k with
            | zero =>
              simp only [List.get?_cons_zero, Option.some.injEq] at h1
              subst h1
              rw [hga] at h2
              have ha := Option.some.inj h2
              subst ha
              exact absurd h4 hR
            | succ k =>
              refine ⟨k, e, a, by simpa using h1, h2, h3, h4, ?_⟩
              have hidx : i + 1 + k = i + (k + 1) := by omega
              rw [hidx]
              exact h5
      · rw [if_neg hW]
        rw [ih (i + 1)]
        constructor
        · rintro ⟨k, e, a, h1, h2, h3, h4, h5⟩
          refine ⟨k + 1, e, a, by simpa using h1, h2, h3, h4, ?_⟩
          have hidx : i + 1 + k = i + (k + 1) := by omega
          rw [← hidx]
          exact h5
        · rintro ⟨k, e, a, h1, h2, h3, h4, h5⟩
          cases k with
          | zero =>
            simp only [List.get?_cons_zero, Option.some.injEq] at h1
            subst h1
            rw [hga] at h2
            have ha := Option.some.inj h2
            subst ha
            exact absurd h3 hW
          | succ k =>
            refine ⟨k, e, a, by simpa using h1, h2, h3, h4, ?_⟩
            have hidx : i + 1 + k = i + (k + 1) := by omega
            rw [hidx]
            exact h5

/-! ## Lemmas about the merge resolution map -/

/-- The primary email of the last merge whose group contains `e`, if any. -/
def lastContaining (merges : List AuthorMerge) (e : String) : Option String :=
  merges.foldl (fun o m => if e ∈ mergeGroup m then some m.primaryEmail else o) none

theorem jsGet_mergeResolutionMap (merges : List AuthorMerge) (e : String) :
    jsGet (mergeResolutionMap merges) e = lastContaining merges e := by
  suffices h : ∀ (acc : List (String × String)),
      jsGet (merges.foldl
        (fun acc m => (mergeGroup m).foldl (fun a x => jsSet a x m.primaryEmail) acc) acc) e =
      merges.foldl (fun o m => if e ∈ mergeGroup m then some m.primaryEmail else o)
        (jsGet acc e) by
    have h0 := h []
    simpa [mergeResolutionMap, lastContaining, jsGet] using h0
  intro acc
  induction merges generalizing acc with
  | nil => rfl
  | cons m rest ih =>
    simp only [List.foldl_cons]
    rw [ih, jsGet_setAll]

/-! ## Merges over an empty author map -/

theorem gatheredAuthors_nilMap (mg : AuthorMerge) :
    gatheredAuthors ([] : AuthorMap) mg = [] := by
  have : ∀ (es : List String), es.filterMap (fun e => jsGet ([] : AuthorMap) e) = [] := by
    intro es
    induction es with
    | nil => rfl
    | cons x xs ih => simp [jsGet, ih]
  exact this _

theorem mergeStep_nilMap (r : AuthorMap) (mg : AuthorMerge) :
    mergeStep [] r mg = r := by
  rw [mergeStep, if_pos]
  rw [gatheredAuthors_nilMap]
  rfl

theorem applyAuthorMerges_nilMap (merges : List AuthorMerge) :
    applyAuthorMerges [] merges = [] := by
  rw [applyAuthorMerges]
  induction merges with
  | nil => rfl
  | cons m rest ih =>
    simp only [List.foldl_cons, mergeStep_nilMap]
    exact ih

/-! ## Lemmas about the marked-list parsers -/

theorem scanMarked_fst_length (proc : String → String) :
    ∀ (raw : List String) (i : Nat), (scanMarked proc i raw).1.length = raw.length := by
  intro raw
  induction raw with
  | nil => intro i; rfl
  | cons r rest ih =>
    intro i
    simp only [scanMarked, List.length_cons, ih]

theorem scanMarked_snd_bound (proc : String → String) :
    ∀ (raw : List String) (i j : Nat),
      j ∈ (scanMarked proc i raw).2 → i ≤ j ∧ j < i + raw.length := by
  intro raw
  induction raw with
  | nil => intro i j h; simp [scanMarked] at h
  | cons r rest ih =>
    intro i j h
    simp only [scanMarked] at h
    by_cases hc : jsContainsChar '*' r
    · rw [if_pos hc] at h
      rcases List.mem_cons.mp h with h | h
      · subst h
        simp only [List.length_cons]
        omega
      · have := ih (i + 1) j h
        simp only [List.length_cons]
        omega
    · rw [if_neg hc] at h
      have := ih (i + 1) j h
      simp only [List.length_cons]
      omega

theorem sortIdxs_perm (l : List Nat) : (sortIdxs l).Perm l :=
  List.perm_insertionSort _ l

theorem mem_sortIdxs {x : Nat} {l : List Nat} : x ∈ sortIdxs l ↔ x ∈ l :=
  (sortIdxs_perm l).mem_iff

/-! ## Spec-side definitions used by the refinement claim

`specCombineAll` follows the words of the spec's Dataset Combiner contract
(§4.7): concatenate every dataset's Submissions, re-run the Aggregator fresh
over the concatenation, then the Merge Resolver, then the Warning Annotator. -/
def specCombineAll (datasets : List Dataset) (merges : List AuthorMerge) :
    List Paper × AuthorMap :=
  let submissions := datasets.flatMap (fun ds => ds.papers)
  let aggregated := calculateAuthorStats submissions
  let resolved := applyAuthorMerges aggregated merges
  (markPaperWarnings submissions resolved merges, resolved)

/-- The union of two precomputed author maps (all entries of the second set
over the first), the construction the spec says the combined view is NOT. -/
def unionPrecomputed (a b : AuthorMap) : AuthorMap :=
  b.foldl (fun acc kv => jsSet acc kv.1 kv.2) a

/-! ## Small auxiliary lemmas for the claims -/

theorem jsIndexOf_eq_neg_one_iff {α : Type} [DecidableEq α] (l : List α) (x : α) :
    jsIndexOf l x = -1 ↔ x ∉ l := by
  induction l with
  | nil => simp [jsIndexOf]
  | cons a as ih =>
    rw [jsIndexOf]
    by_cases h : a = x
    · simp [h]
    · by_cases hr : jsIndexOf as x = -1
      · have hx : x ∉ as := ih.mp hr
        have hxa : ¬ x = a := fun hh => h hh.symm
        simp [h, hr, hx, hxa]
      · have hx : x ∈ as := by
          by_contra hnx
          exact hr (ih.mpr hnx)
        rcases jsIndexOf_cases as x with hc | ⟨hge, _⟩
        · exact absurd hc hr
        · have hno : ¬ jsIndexOf as x + 1 = -1 := by omega
          simp [h, hr, hno, hx]

instance : DecidableRel DisjointGroups := fun m1 m2 =>
  inferInstanceAs (Decidable (∀ e ∈ mergeGroup m1, e ∉ mergeGroup m2))

theorem mergedAuthorOf_paperIds (authors : AuthorMap) (mg : AuthorMerge) :
    (mergedAuthorOf authors mg).paperIds =
      sortNums (dedupFirst ((gatheredAuthors authors mg).flatMap (fun a => a.paperIds))) := rfl

theorem mergedAuthorOf_organization (authors : AuthorMap) (mg : AuthorMerge) :
    (mergedAuthorOf authors mg).organization =
      jsOrStr (((gatheredAuthors authors mg).find? (fun a => a.organization ≠ "")).map
        (fun a => a.organization)) "" := rfl

theorem parseAuthorNames_idx_bound (o : Option String) :
    ∀ j ∈ (parseAuthorNames o).2, j < (parseAuthorNames o).1.length := by
  intro j hj
  match o with
  | none => simp [parseAuthorNames] at hj
  | some s =>
    rw [parseAuthorNames] at hj ⊢
    by_cases hs : s = ""
    · rw [if_pos hs] at hj; simp at hj
    · rw [if_neg hs] at hj ⊢
      rw [scanMarked_fst_length]
      have := scanMarked_snd_bound formatAuthorName (splitEntries s) 0 j hj
      omega

theorem parseAuthorEmails_idx_bound (o : Option String) :
    ∀ j ∈ (parseAuthorEmails o).2, j < (parseAuthorEmails o).1.length := by
  intro j hj
  match o with
  | none => simp [parseAuthorEmails] at hj
  | some s =>
    rw [parseAuthorEmails] at hj ⊢
    by_cases hs : s = ""
    · rw [if_pos hs] at hj; simp at hj
    · rw [if_neg hs] at hj ⊢
      rw [scanMarked_fst_length]
      have := scanMarked_snd_bound (fun e => e) (splitEntries s) 0 j hj
      omega

theorem parseAuthorOrganizations_idx_bound (o : Option String) :
    ∀ j ∈ (parseAuthorOrganizations o).2, j < (parseAuthorOrganizations o).1.length := by
  intro j hj
  match o with
  | none => simp [parseAuthorOrganizations] at hj
  | some s =>
    rw [parseAuthorOrganizations] at hj ⊢
    by_cases hs : s = ""
    · rw [if_pos hs] at hj; simp at hj
    · rw [if_neg hs] at hj ⊢
      rw [scanMarked_fst_length]
      have := scanMarked_snd_bound extractOrg (splitEntries s) 0 j hj
      omega

/-! ## Fixtures for witnesses and counterexamples -/

/-- The spec's end-to-end scenario: three papers 10/20/30 by one author. -/
def endToEndPapers : List Paper :=
  [mkP 10 ["X Y"] ["x@example.com"], mkP 20 ["X Y"] ["x@example.com"],
   mkP 30 ["X Y"] ["x@example.com"]]

/-- Author maps/merges for the merge-union scenario X:[1,3], Y:[2,3]. -/
def amXY : AuthorMap := [("x", mkA "x" "X" [1, 3] ""), ("y", mkA "y" "Y" [2, 3] "OY")]

def mXY : AuthorMerge := mkM "m1" "x" "X" ["y"] ["Y"]

/-- Two disjoint merges over four authors, for order independence. -/
def amWitness4 : AuthorMap :=
  [("a1", mkA "a1" "A1" [1] ""), ("a2", mkA "a2" "A2" [2] ""),
   ("b1", mkA "b1" "B1" [3] ""), ("b2", mkA "b2" "B2" [4] "")]

def mA12 : AuthorMerge := mkM "ma" "a1" "A1" ["a2"] ["A2"]

def mB12 : AuthorMerge := mkM "mb" "b1" "B1" ["b2"] ["B2"]

/-- An email `s` listed by two active merges. -/
def overlapAuthors : AuthorMap :=
  [("p1", mkA "p1" "P1" [1] ""), ("p2", mkA "p2" "P2" [2] ""), ("s", mkA "s" "S" [3] "")]

def overlapM1 : AuthorMerge := mkM "m1" "p1" "P1" ["s"] ["S"]

def overlapM2 : AuthorMerge := mkM "m2" "p2" "P2" ["s"] ["S"]

/-- The merge group {A, B, C} with primary A, for removal symmetry. -/
def mABC : AuthorMerge := mkM "m" "a@A" "A" ["b@B", "c@C"] ["B", "C"]

/-- A raw row whose name column is blank while the email column has two
starred entries. -/
def rowC5 : ExcelRow := mkRow 7 (some "") (some "a@x.com*; b@y.com") none

/-- Two one-paper datasets sharing the author email `x@e.com`, with their
per-dataset author maps precomputed exactly as import does. -/
def dsW1 : Dataset :=
  { id := "d1", label := "", fileName := "", importedAt := "",
    papers := [mkP 1 ["A"] ["x@e.com"]],
    authors := calculateAuthorStats [mkP 1 ["A"] ["x@e.com"]] }

def dsW2 : Dataset :=
  { id := "d2", label := "", fileName := "", importedAt := "",
    papers := [mkP 2 ["A"] ["x@e.com"]],
    authors := calculateAuthorStats [mkP 2 ["A"] ["x@e.com"]] }

/-! ## The claims -/

/-- C3: `markPaperWarnings` is pure and idempotent — applying it to its own
output with the same author map and merge list returns the very same
submission list (in particular identical `hasWarning` and `warningAuthors`
fields); re-annotation never accumulates or duplicates warning entries. -/
theorem claim_c3_markWarnings_idempotent (S : List Paper) (A : AuthorMap)
    (M : List AuthorMerge) :
    markPaperWarnings (markPaperWarnings S A M) A M = markPaperWarnings S A M :=
  markPaperWarnings_twice S A A M M

/-- C7 (counterexample): the one-space string is non-empty and contains none
of the four delimiters, yet `parseDelimitedString` yields `[]` rather than a
single-element array, refuting the claim as stated. -/
theorem claim_c7_counterexample :
    " " ≠ "" ∧ jsContainsChar ',' " " = false ∧ jsContainsChar ';' " " = false ∧
    jsContainsChar '\n' " " = false ∧ jsContainsChar '|' " " = false ∧
    (parseDelimitedString (some " ")).length ≠ 1 := by
  decide

/-- C7 (amended): `parseDelimitedString` tries `, ; \n |` in that fixed
order and splits on the first delimiter present (so `"a,b;c"` gives
`["a", "b;c"]`), trimming every piece and dropping empty pieces; a string
containing none of the delimiters yields the one-element array of its trim
when that trim is non-empty and `[]` otherwise; empty or absent input
yields `[]`. -/
theorem claim_c7_delimiter_priority :
    parseDelimitedString none = [] ∧
    parseDelimitedString (some "") = [] ∧
    (∀ s : String, s ≠ "" → jsContainsChar ',' s = true →
      parseDelimitedString (some s) =
        ((jsSplitChar ',' s).map jsTrim).filter (fun x => ¬ x = "")) ∧
    (∀ s : String, s ≠ "" → jsContainsChar ',' s = false → jsContainsChar ';' s = true →
      parseDelimitedString (some s) =
        ((jsSplitChar ';' s).map jsTrim).filter (fun x => ¬ x = "")) ∧
    (∀ s : String, s ≠ "" → jsContainsChar ',' s = false → jsContainsChar ';' s = false →
      jsContainsChar '\n' s = true →
      parseDelimitedString (some s) =
        ((jsSplitChar '\n' s).map jsTrim).filter (fun x => ¬ x = "")) ∧
    (∀ s : String, s ≠ "" → jsContainsChar ',' s = false → jsContainsChar ';' s = false →
      jsContainsChar '\n' s = false → jsContainsChar '|' s = true →
      parseDelimitedString (some s) =
        ((jsSplitChar '|' s).map jsTrim).filter (fun x => ¬ x = "")) ∧
    (∀ s : String, s ≠ "" → jsContainsChar ',' s = false → jsContainsChar ';' s = false →
      jsContainsChar '\n' s = false → jsContainsChar '|' s = false →
      parseDelimitedString (some s) = if jsTrim s = "" then [] else [jsTrim s]) ∧
    parseDelimitedString (some "a,b;c") = ["a", "b;c"] := by
  refine ⟨rfl, rfl, ?_, ?_, ?_, ?_, ?_, by decide⟩
  · intro s h1 h2
    simp [parseDelimitedString, splitTrimDrop, h1, h2]
  · intro s h1 h2 h3
    simp [parseDelimitedString, splitTrimDrop, h1, h2, h3]
  · intro s h1 h2 h3 h4
    simp [parseDelimitedString, splitTrimDrop, h1, h2, h3, h4]
  · intro s h1 h2 h3 h4 h5
    simp [parseDelimitedString, splitTrimDrop, h1, h2, h3, h4, h5]
  · intro s h1 h2 h3 h4 h5
    simp [parseDelimitedString, splitTrimDrop, h1, h2, h3, h4, h5]

/-- Witness for C7 (amended): the comma clause applied at `"a,b;c"`. -/
theorem claim_c7_witness :
    "a,b;c" ≠ "" ∧ jsContainsChar ',' "a,b;c" = true ∧
    parseDelimitedString (some "a,b;c") =
      ((jsSplitChar ',' "a,b;c").map jsTrim).filter (fun x => ¬ x = "") :=
  ⟨by decide, by decide,
    claim_c7_delimiter_priority.2.2.1 "a,b;c" (by decide) (by decide)⟩

/-- C4: for a merge list with pairwise disjoint email groups,
`applyAuthorMerges` produces the same map (pointwise, for every key) under
every permutation of the list; each merge reads its aggregates from the
pre-merge input map, so merges never cascade. -/
theorem claim_c4_merge_order_independence (authors : AuthorMap)
    (merges1 merges2 : List AuthorMerge) (hperm : merges1.Perm merges2)
    (hdisj : merges1.Pairwise DisjointGroups) (k : String) :
    jsGet (applyAuthorMerges authors merges1) k =
      jsGet (applyAuthorMerges authors merges2) k :=
  foldl_mergeStep_perm authors hperm hdisj authors k

/-- Witness for C4: two disjoint merges applied in both orders agree at the
first primary key. -/
theorem claim_c4_witness :
    ([mA12, mB12].Perm [mB12, mA12]) ∧ ([mA12, mB12].Pairwise DisjointGroups) ∧
    jsGet (applyAuthorMerges amWitness4 [mA12, mB12]) "a1" =
      jsGet (applyAuthorMerges amWitness4 [mB12, mA12]) "a1" :=
  ⟨List.Perm.swap mB12 mA12 [], by decide,
    claim_c4_merge_order_independence amWitness4 [mA12, mB12] [mB12, mA12]
      (List.Perm.swap mB12 mA12 []) (by decide) "a1"⟩

/-- C6 (counterexample): with the email `s` active in two merges,
`applyAuthorMerges` raises no error: it returns a well-defined map in which
`s`'s paper 3 is counted into both surviving primaries, and the annotator's
resolution map silently picks the later merge's primary for `s`. -/
theorem claim_c6_counterexample :
    applyAuthorMerges overlapAuthors [overlapM1, overlapM2] =
      [("p1", mkA "p1" "P1" [1, 3] ""), ("p2", mkA "p2" "P2" [2, 3] "")] ∧
    jsGet (mergeResolutionMap [overlapM1, overlapM2]) "s" = some "p2" ∧
    "p2" ≠ "p1" := by
  decide

/-- C6 (amended): applying merges with an email in two active groups does
not raise; every merge is applied independently against the pre-merge
snapshot, and for warning annotation the email-to-canonical map silently
resolves each email to the `primaryEmail` of the LAST merge whose group
lists it. -/
theorem claim_c6_overlap_last_merge_wins (merges : List AuthorMerge) (e : String) :
    jsGet (mergeResolutionMap merges) e = lastContaining merges e :=
  jsGet_mergeResolutionMap merges e

/-- C8: removing one email from a merge group: a removed primary with
remaining members promotes the first member (email and name) and drops it
from the merged lists; removing the group's last member (a primary with no
members, or the only member) deletes the merge entirely; removing a listed
non-primary member drops it (and its parallel name) at the matching index,
deleting the merge when that empties the non-primary list; an email not in
the group leaves the merge list unchanged. -/
theorem claim_c8_remove_author_from_merge (merges : List AuthorMerge)
    (mergeId email : String) (m : AuthorMerge)
    (hfind : merges.find? (fun x => x.id = mergeId) = some m) :
    (m.primaryEmail = email → m.mergedEmails = [] →
      removeAuthorFromMerge merges mergeId email =
        merges.filter (fun x => ¬ x.id = mergeId)) ∧
    (m.primaryEmail = email → m.mergedEmails ≠ [] →
      removeAuthorFromMerge merges mergeId email =
        merges.map (fun x => if x.id = mergeId then
          { m with primaryEmail := (m.mergedEmails.get? 0).getD "",
                   primaryName := (m.mergedNames.get? 0).getD "",
                   mergedEmails := m.mergedEmails.drop 1,
                   mergedNames := m.mergedNames.drop 1 } else x)) ∧
    (m.primaryEmail ≠ email → email ∈ m.mergedEmails → m.mergedEmails.length = 1 →
      removeAuthorFromMerge merges mergeId email =
        merges.filter (fun x => ¬ x.id = mergeId)) ∧
    (m.primaryEmail ≠ email → email ∈ m.mergedEmails → m.mergedEmails.length ≠ 1 →
      removeAuthorFromMerge merges mergeId email =
        merges.map (fun x => if x.id = mergeId then
          { m with
            mergedEmails := m.mergedEmails.eraseIdx (jsIndexOf m.mergedEmails email).toNat,
            mergedNames := m.mergedNames.eraseIdx (jsIndexOf m.mergedEmails email).toNat }
          else x)) ∧
    (m.primaryEmail ≠ email → email ∉ m.mergedEmails →
      removeAuthorFromMerge merges mergeId email = merges) := by
  refine ⟨?_, ?_, ?_, ?_, ?_⟩
  · intro h1 h2
    simp [removeAuthorFromMerge, hfind, h1, h2, unmergeAuthors]
  · intro h1 h2
    have hlen : ¬ m.mergedEmails.length = 0 := by
      simpa [List.length_eq_zero] using h2
    simp [removeAuthorFromMerge, hfind, h1, hlen]
  · intro h1 h2 h3
    have hidx : ¬ jsIndexOf m.mergedEmails email = -1 := by
      rw [jsIndexOf_eq_neg_one_iff]
      simpa using h2
    simp [removeAuthorFromMerge, hfind, h1, hidx, h3, unmergeAuthors]
  · intro h1 h2 h3
    have hidx : ¬ jsIndexOf m.mergedEmails email = -1 := by
      rw [jsIndexOf_eq_neg_one_iff]
      simpa using h2
    simp [removeAuthorFromMerge, hfind, h1, hidx, h3]
  · intro h1 h2
    have hidx : jsIndexOf m.mergedEmails email = -1 :=
      (jsIndexOf_eq_neg_one_iff _ _).mpr h2
    simp [removeAuthorFromMerge, hfind, h1, hidx]

/-- Witness for C8: removing primary A from the {A, B, C} group promotes B
(first remaining, with its name) and leaves C as the only merged member. -/
theorem claim_c8_witness :
    ([mABC].find? (fun x => x.id = "m") = some mABC) ∧
    mABC.primaryEmail = "a@A" ∧ mABC.mergedEmails ≠ [] ∧
    removeAuthorFromMerge [mABC] "m" "a@A" = [mkM "m" "b@B" "B" ["c@C"] ["C"]] := by
  refine ⟨by decide, by decide, by decide, ?_⟩
  have h := (claim_c8_remove_author_from_merge [mABC] "m" "a@A" mABC (by decide)).2.1
    (by decide) (by decide)
  rw [h]
  decide

/-- C10: `markPaperWarnings` is frame-preserving — the output has the same
length (and order, being a positional map), and every field of each output
submission other than `hasWarning` and `warningAuthors` equals the
corresponding input field. -/
theorem claim_c10_markWarnings_frame (papers : List Paper) (A : AuthorMap)
    (M : List AuthorMerge) :
    (markPaperWarnings papers A M).length = papers.length ∧
    ∀ i p q, papers.get? i = some p → (markPaperWarnings papers A M).get? i = some q →
      q.paperId = p.paperId ∧ q.originalPaperId = p.originalPaperId ∧
      q.title = p.title ∧ q.abstract = p.abstract ∧
      q.primaryContactAuthorName = p.primaryContactAuthorName ∧
      q.primaryContactAuthorEmail = p.primaryContactAuthorEmail ∧
      q.authorNames = p.authorNames ∧ q.authorEmails = p.authorEmails ∧
      q.authorOrganizations = p.authorOrganizations ∧
      q.correspondingAuthorIndices = p.correspondingAuthorIndices ∧
      q.trackName = p.trackName ∧ q.primarySubjectArea = p.primarySubjectArea ∧
      q.secondarySubjectAreas = p.secondarySubjectAreas ∧ q.status = p.status ∧
      q.created = p.created ∧ q.lastModified = p.lastModified ∧
      q.conflicts = p.conflicts ∧ q.assigned = p.assigned ∧
      q.completed = p.completed ∧ q.percentCompleted = p.percentCompleted ∧
      q.bids = p.bids ∧ q.discussion = p.discussion ∧
      q.requestedForAuthorFeedback = p.requestedForAuthorFeedback ∧
      q.authorFeedbackSubmitted = p.authorFeedbackSubmitted ∧
      q.requestedForCameraReady = p.requestedForCameraReady ∧
      q.cameraReadySubmitted = p.cameraReadySubmitted ∧
      q.requestedForPresentation = p.requestedForPresentation ∧
      q.files = p.files ∧ q.numberOfFiles = p.numberOfFiles ∧
      q.supplementaryFiles = p.supplementaryFiles ∧
      q.numberOfSupplementaryFiles = p.numberOfSupplementaryFiles ∧
      q.reviewers = p.reviewers ∧ q.reviewerEmails = p.reviewerEmails ∧
      q.metaReviewers = p.metaReviewers ∧ q.metaReviewerEmails = p.metaReviewerEmails ∧
      q.seniorMetaReviewers = p.seniorMetaReviewers ∧
      q.seniorMetaReviewerEmails = p.seniorMetaReviewerEmails ∧
      q.reviewMinOverallRating = p.reviewMinOverallRating ∧
      q.reviewMaxOverallRating = p.reviewMaxOverallRating ∧
      q.reviewAvgOverallRating = p.reviewAvgOverallRating ∧
      q.reviewSpreadOverallRating = p.reviewSpreadOverallRating ∧
      q.chairNote = p.chairNote := by
  refine ⟨markPaperWarnings_length papers A M, ?_⟩
  intro i p q hp hq
  rw [markPaperWarnings_get?, hp, Option.map_some'] at hq
  have hpq := Option.some.inj hq
  subst hpq
  simp [markOnePaper]

/-- Witness for C10: the frame theorem applied to a one-paper list. -/
theorem claim_c10_witness :
    (markOnePaper [] (mergeResolutionMap []) (mkP 1 ["A"] ["x"])).paperId =
      (mkP 1 ["A"] ["x"]).paperId :=
  ((claim_c10_markWarnings_frame [mkP 1 ["A"] ["x"]] [] []).2 0 (mkP 1 ["A"] ["x"])
    (markOnePaper [] (mergeResolutionMap []) (mkP 1 ["A"] ["x"])) rfl rfl).1

/-- C1: over any submission set, the aggregates of `calculateAuthorStats`
put `hasWarning = false` at `paperCount = 2` (the quota) and `true` at
`paperCount = 3`; and after `markPaperWarnings` (no merges) a submission's
`warningAuthors` holds exactly the entries
`{name, original email, paperCount, paperRank}` of the author positions
whose rank (1 + index of the submission's `paperId` in the author's
ascending-sorted `paperIds`) exceeds the quota — no entry for any position
ranked at or below it. -/
theorem claim_c1_quota_boundary (papers : List Paper) :
    (∀ e a, jsGet (calculateAuthorStats papers) e = some a →
        (a.paperCount = 2 → a.hasWarning = false) ∧
        (a.paperCount = 3 → a.hasWarning = true)) ∧
    (∀ i p w, papers.get? i = some p →
        (w ∈ (((markPaperWarnings papers (calculateAuthorStats papers) []).get? i).getD
                basePaper).warningAuthors ↔
          ∃ j e a, p.authorEmails.get? j = some e ∧
            jsGet (calculateAuthorStats papers) e = some a ∧
            2 < jsIndexOf a.paperIds p.paperId + 1 ∧
            w = ⟨p.authorNames.get? j, e, a.paperCount,
                 jsIndexOf a.paperIds p.paperId + 1⟩)) := by
  constructor
  · intro e a h
    obtain ⟨hc, hw⟩ := calc_count_warning papers e a h
    constructor
    · intro h2
      rw [hw, ← hc, h2]
      rfl
    · intro h2
      rw [hw, ← hc, h2]
      rfl
  · intro i p w hp
    rw [markPaperWarnings_get?, hp, Option.map_some', Option.getD_some]
    rw [show (markOnePaper (calculateAuthorStats papers) (mergeResolutionMap []) p).warningAuthors
          = warnGo (calculateAuthorStats papers) (mergeResolutionMap []) p 0 p.authorEmails
        from rfl]
    rw [mem_warnGo (calculateAuthorStats papers) (mergeResolutionMap []) p w p.authorEmails 0]
    constructor
    · rintro ⟨k, e, a, h1, h2, _, h4, h5⟩
      exact ⟨k, e, a, h1, h2, h4, by simpa using h5⟩
    · rintro ⟨k, e, a, h1, h2, h4, h5⟩
      have hcw := calc_count_warning papers e a h2
      have h3 : a.hasWarning = true := by
        rcases jsIndexOf_cases a.paperIds p.paperId with hneg | ⟨hge, hlt⟩
        · rw [hneg] at h4
          omega
        · rw [hcw.2]
          have hlen : 2 < a.paperIds.length := by
            have h2i : (2 : Int) < (a.paperIds.length : Int) := by omega
            exact_mod_cast h2i
          simpa using hlen
      exact ⟨k, e, a, h1, h2, h3, h4, by simpa using h5⟩

/-- Witness for C1: in the end-to-end scenario (papers 10/20/30 by the one
author `x@example.com`), submission 30 carries exactly the warning entry
with `paperCount = 3`, `paperRank = 3`. -/
theorem claim_c1_witness :
    (⟨some "X Y", "x@example.com", 3, 3⟩ : AuthorWarning) ∈
      (((markPaperWarnings endToEndPapers (calculateAuthorStats endToEndPapers) []).get? 2).getD
        basePaper).warningAuthors :=
  ((claim_c1_quota_boundary endToEndPapers).2 2 (mkP 30 ["X Y"] ["x@example.com"])
      ⟨some "X Y", "x@example.com", 3, 3⟩ rfl).mpr
    ⟨0, "x@example.com", mkA "x@example.com" "X Y" [10, 20, 30] "",
      by decide, by decide, by decide, by decide⟩

/-- C2: merging one `AuthorMerge` whose group has at least one existing
aggregate removes every other group email from the map, leaves every
non-group email untouched (group emails with no aggregate are tolerated),
and installs at `primaryEmail` a single replacement whose `paperIds` is the
ascending-sorted deduplicated union of the gathered aggregates' paper ids,
with `name = primaryName`, `paperCount` the union's length,
`hasWarning = paperCount > 2`, `organization` the first non-empty gathered
organization, and `hasEmailConflict = false`. -/
theorem claim_c2_apply_merges (authors : AuthorMap) (m : AuthorMerge)
    (hne : gatheredAuthors authors m ≠ []) :
    (∀ e, e ∈ mergeGroup m → e ≠ m.primaryEmail →
        jsGet (applyAuthorMerges authors [m]) e = none) ∧
    (∀ e, e ∉ mergeGroup m →
        jsGet (applyAuthorMerges authors [m]) e = jsGet authors e) ∧
    jsGet (applyAuthorMerges authors [m]) m.primaryEmail = some (mergedAuthorOf authors m) ∧
    (mergedAuthorOf authors m).name = m.primaryName ∧
    (mergedAuthorOf authors m).email = m.primaryEmail ∧
    (mergedAuthorOf authors m).id = m.primaryEmail ∧
    (mergedAuthorOf authors m).hasEmailConflict = false ∧
    (mergedAuthorOf authors m).paperIds.Sorted (· ≤ ·) ∧
    (mergedAuthorOf authors m).paperIds.Nodup ∧
    (∀ x : Int, x ∈ (mergedAuthorOf authors m).paperIds ↔
        ∃ a ∈ gatheredAuthors authors m, x ∈ a.paperIds) ∧
    (mergedAuthorOf authors m).paperCount = (mergedAuthorOf authors m).paperIds.length ∧
    (mergedAuthorOf authors m).hasWarning =
      decide (2 < (mergedAuthorOf authors m).paperCount) ∧
    (mergedAuthorOf authors m).organization =
      ((((gatheredAuthors authors m).find? (fun a => a.organization ≠ "")).map
        (fun a => a.organization)).getD "") := by
  have happ : applyAuthorMerges authors [m] = mergeStep authors authors m := by
    simp [applyAuthorMerges]
  have hlen : ¬ (gatheredAuthors authors m).length = 0 := by
    simpa [List.length_eq_zero] using hne
  refine ⟨?_, ?_, ?_, rfl, rfl, rfl, rfl, ?_, ?_, ?_, ?_, ?_, ?_⟩
  · intro e hmem hnep
    rw [happ, jsGet_mergeStep, if_neg hlen, if_neg hnep, if_pos hmem]
  · intro e hnot
    have hnep : ¬ e = m.primaryEmail := fun h => hnot (h ▸ List.mem_cons_self _ _)
    rw [happ, jsGet_mergeStep, if_neg hlen, if_neg hnep, if_neg hnot]
  · rw [happ, jsGet_mergeStep, if_neg hlen, if_pos rfl]
  · rw [mergedAuthorOf_paperIds]
    exact sortNums_sorted _
  · rw [mergedAuthorOf_paperIds]
    exact sortNums_nodup (nodup_dedupFirst _)
  · intro x
    rw [mergedAuthorOf_paperIds, mem_sortNums, mem_dedupFirst]
    exact List.mem_flatMap
  · rfl
  · rfl
  · rw [mergedAuthorOf_organization]
    cases hfind : (gatheredAuthors authors m).find? (fun a => a.organization ≠ "") with
    | none => rfl
    | some a =>
      have hp := List.find?_some hfind
      have : ¬ a.organization = "" := by simpa using hp
      simp [jsOrStr, this]

/-- Witness for C2: merging Y:[2,3] into X:[1,3] removes key `y`, installs
the replacement at `x`, and its union `paperIds` is `[1, 2, 3]`. -/
theorem claim_c2_witness :
    gatheredAuthors amXY mXY ≠ [] ∧
    jsGet (applyAuthorMerges amXY [mXY]) "y" = none ∧
    jsGet (applyAuthorMerges amXY [mXY]) "x" = some (mergedAuthorOf amXY mXY) ∧
    (mergedAuthorOf amXY mXY).paperIds = [1, 2, 3] := by
  refine ⟨by decide, ?_, ?_, by decide⟩
  · exact (claim_c2_apply_merges amXY mXY (by decide)).1 "y" (by decide) (by decide)
  · have h := (claim_c2_apply_merges amXY mXY (by decide)).2.2.1
    simpa [mXY, mkM] using h

/-- C5 (counterexample): the Record Builder does not pad the parsed arrays
to a common length — a row with a blank name column and two starred email
entries yields `authorNames = []`, `authorEmails` of length 2, and the
corresponding-author index `0`, which is not below `authorNames.length`. -/
theorem claim_c5_counterexample :
    ¬ ((convertExcelRowToPaper rowC5).authorNames.length =
         (convertExcelRowToPaper rowC5).authorEmails.length ∧
       ∀ j ∈ (convertExcelRowToPaper rowC5).correspondingAuthorIndices,
         j < (convertExcelRowToPaper rowC5).authorNames.length) := by
  decide

/-- C5 (amended): `authorNames` and `authorEmails` are exactly the parsed
lists of their own columns (no padding, so their lengths may differ), and
every index in `correspondingAuthorIndices` lies below the maximum of the
three parsed array lengths. -/
theorem claim_c5_record_builder_bounds (row : ExcelRow) :
    (convertExcelRowToPaper row).authorNames.length =
      (parseAuthorNames row.authorNamesCol).1.length ∧
    (convertExcelRowToPaper row).authorEmails.length =
      (parseAuthorEmails row.authorEmailsCol).1.length ∧
    ∀ j ∈ (convertExcelRowToPaper row).correspondingAuthorIndices,
      j < max (max (convertExcelRowToPaper row).authorNames.length
                   (convertExcelRowToPaper row).authorEmails.length)
              (convertExcelRowToPaper row).authorOrganizations.length := by
  refine ⟨rfl, rfl, ?_⟩
  intro j hj
  have hj2 : j ∈ dedupFirst ((parseAuthorNames row.authorNamesCol).2 ++
      (parseAuthorEmails row.authorEmailsCol).2 ++
      (parseAuthorOrganizations row.authorsCol).2) := by
    simpa [convertExcelRowToPaper, mem_sortIdxs] using hj
  rw [mem_dedupFirst] at hj2
  rw [lt_max_iff, lt_max_iff]
  rcases List.mem_append.mp hj2 with hj3 | hj3
  · rcases List.mem_append.mp hj3 with hj4 | hj4
    · exact Or.inl (Or.inl (parseAuthorNames_idx_bound _ j hj4))
    · exact Or.inl (Or.inr (parseAuthorEmails_idx_bound _ j hj4))
  · exact Or.inr (parseAuthorOrganizations_idx_bound _ j hj3)

/-- Witness for C5 (amended): on the counterexample row the marker index 0
is below the maximum of the three parsed lengths. -/
theorem claim_c5_witness :
    0 ∈ (convertExcelRowToPaper rowC5).correspondingAuthorIndices ∧
    0 < max (max (convertExcelRowToPaper rowC5).authorNames.length
                 (convertExcelRowToPaper rowC5).authorEmails.length)
            (convertExcelRowToPaper rowC5).authorOrganizations.length :=
  ⟨by decide, (claim_c5_record_builder_bounds rowC5).2.2 0 (by decide)⟩

/-- C9: the "all datasets" view equals the spec pipeline — concatenate
every dataset's submissions (no cross-dataset paperId dedup), rerun the
Aggregator fresh over the concatenation, then the Merge Resolver, then the
Warning Annotator; and it is NOT the union of the per-dataset precomputed
aggregates (an author in two datasets gets `paperCount 2` combined, while
any union of the precomputed maps keeps `paperCount 1`). -/
theorem claim_c9_combined_view :
    (∀ (datasets : List Dataset) (merges : List AuthorMerge),
        setCurrentDatasetAll datasets merges = specCombineAll datasets merges) ∧
    jsGet (setCurrentDatasetAll [dsW1, dsW2] []).2 "x@e.com" ≠
      jsGet (unionPrecomputed dsW1.authors dsW2.authors) "x@e.com" := by
  constructor
  · intro datasets merges
    by_cases h : datasets.length = 0
    · have hnil : datasets = [] := List.length_eq_zero.mp h
      subst hnil
      simp [setCurrentDatasetAll, specCombineAll, mergeDatasets, markPaperWarnings,
        calculateAuthorStats, firstPass, applyAuthorMerges_nilMap]
    · simp only [setCurrentDatasetAll, specCombineAll, mergeDatasets, if_neg h]
      rw [markPaperWarnings_twice]
  · decide

end VLDB
